import Mathlib

/-! Verification of the credential-lifecycle and request-resilience layer of
the google-photos-mcp server: the multi-user token store (`tokens.ts`), the
secure-storage migration (`secureTokenStorage.ts`), the single-flight token
refresh manager (`TokenRefreshManager`), the retry executor (`retry.ts`), the
quota tracker (`QuotaManager`), the Nominatim rate limiter
(`NominatimRateLimiter`) and the verifying ID-token parser (`googleUser.ts`).

JavaScript numbers holding timestamps are modelled as `Int` or `Nat`; JSON
objects are modelled as insertion-ordered association lists, matching the
enumeration order of string-keyed JavaScript objects. Asynchronous code is
modelled under the JavaScript event loop: a stretch of code with no `await`
inside runs atomically. -/

/-- A primitive JSON value as it may appear in a stored token field. -/
inductive JLit where
  | str (s : String)
  | num (n : Int)
  | boolv (b : Bool)
  | nullv
deriving DecidableEq

/-- A JSON object stored under a user key in the tokens file, flattened to the
fields the code ever reads; an absent field is `none`. Fields the code never
inspects are irrelevant to every operation modelled here. -/
structure RawRecord where
  access_token : Option JLit
  refresh_token : Option JLit
  id_token : Option JLit
  expiry_date : Option JLit
  userEmail : Option JLit
  userId : Option JLit
  retrievedAt : Option JLit
deriving DecidableEq

/-- A value stored under a user key: either a JSON primitive or an object. -/
inductive StoreVal where
  | prim (l : JLit)
  | record (r : RawRecord)
deriving DecidableEq

/-- `TokenData` from `src/auth/tokens.ts`. -/
structure TokenData where
  access_token : String
  refresh_token : String
  expiry_date : Int
  userEmail : Option String
  userId : Option String
  retrievedAt : Option Int
deriving DecidableEq

/-- JavaScript `obj[k] = v` (and `Map.set`): an existing key keeps its
position and gets the new value; a new key is appended at the end. -/
def jsObjSet {V : Type} : List (String × V) → String → V → List (String × V)
  | [], k, v => [(k, v)]
  | p :: m, k, v => if p.1 == k then (k, v) :: m else p :: jsObjSet m k v

/-- JavaScript property lookup `obj[k]` on an object modelled as an
association list. -/
def jsObjGet {V : Type} (m : List (String × V)) (k : String) : Option V :=
  (m.find? (fun p => p.1 == k)).map (fun p => p.2)

/-- JavaScript `delete obj[k]` (and `Map.delete`). -/
def jsObjDelete {V : Type} (m : List (String × V)) (k : String) : List (String × V) :=
  m.filter (fun p => !(p.1 == k))

/-- `isValidToken` from `src/auth/tokens.ts`: the entry is a non-null object
and the keys `access_token`, `refresh_token`, `expiry_date` are all present.
The values behind the keys are not inspected. -/
def isValidToken : StoreVal → Bool
  | .prim _ => false
  | .record r => r.access_token.isSome && r.refresh_token.isSome && r.expiry_date.isSome

/-- The sort key of `getNewestValidToken`:
`typeof a.retrievedAt === 'number' ? a.retrievedAt : 0`. -/
def entryTime : StoreVal → Int
  | .record r =>
    match r.retrievedAt with
    | some (.num n) => n
    | _ => 0
  | .prim _ => 0

/-- The valid entries of the store, in insertion order
(`Object.entries(allTokens).filter(([, entry]) => isValidToken(entry))`). -/
def validEntries (allTokens : List (String × StoreVal)) : List (String × StoreVal) :=
  allTokens.filter (fun p => isValidToken p.2)

/-- The JavaScript sort comparator `(, a) (, b) => bTime - aTime` keeps `x`
before `y` exactly when `entryTime y ≤ entryTime x`; JavaScript array sort is
stable, as is `List.mergeSort`. -/
def newestLE (x y : String × StoreVal) : Bool :=
  decide (entryTime y.2 ≤ entryTime x.2)

/-- `getNewestValidToken` from `src/auth/tokens.ts`: filter with
`isValidToken`, stably sort by `retrievedAt` descending, return the first
entry, or null when none pass. -/
def getNewestValidToken (allTokens : List (String × StoreVal)) : Option (String × StoreVal) :=
  ((validEntries allTokens).mergeSort newestLE).head?

/-- Executable characterisation of the head of the stable descending sort:
the first entry attaining the maximal `retrievedAt`. -/
def firstNewest : List (String × StoreVal) → Option (String × StoreVal)
  | [] => none
  | a :: l =>
    match firstNewest l with
    | none => some a
    | some m => if entryTime a.2 < entryTime m.2 then some m else some a

/-- The validity predicate as the specification words it: non-empty access
token, non-empty refresh token, numeric expiry. Stated only to compare with
the `isValidToken` the code implements. -/
def specValidToken : StoreVal → Bool
  | .record r =>
    (match r.access_token with | some (.str s) => !(s == "") | _ => false) &&
    (match r.refresh_token with | some (.str s) => !(s == "") | _ => false) &&
    (match r.expiry_date with | some (.num _) => true | _ => false)
  | .prim _ => false

/-- How `saveTokens` sees the existing store file: missing, unreadable or
unparseable (the `catch` starts from an empty object in either case), or
parsed as a JSON object. -/
inductive ReadResult where
  | missing
  | unreadable
  | parsed (m : List (String × StoreVal))
deriving DecidableEq

/-- The record `{...tokens, retrievedAt: timestamp}` that `saveTokens` stores
under `userId` (`JSON.stringify` drops absent optional fields). -/
def tokenToRecord (t : TokenData) (now : Int) : RawRecord :=
  { access_token := some (.str t.access_token)
    refresh_token := some (.str t.refresh_token)
    id_token := none
    expiry_date := some (.num t.expiry_date)
    userEmail := t.userEmail.map JLit.str
    userId := t.userId.map JLit.str
    retrievedAt := some (.num now) }

/-- `saveTokens` from `src/auth/tokens.ts`: read the existing file (missing or
unparseable starts from `{}`), set `allTokens[userId]` to the tokens stamped
with `retrievedAt = Date.now()`, write the whole object back. -/
def saveTokensModel (r : ReadResult) (userId : String) (tokens : TokenData) (now : Int) :
    List (String × StoreVal) :=
  let allTokens :=
    match r with
    | .parsed m => m
    | _ => []
  jsObjSet allTokens userId (.record (tokenToRecord tokens now))

/-- `RetryConfig` from `src/utils/retry.ts`, with all defaults filled in
(`Required<RetryConfig>`). -/
structure RetryConfig where
  maxRetries : Nat
  initialDelayMs : Nat
  maxDelayMs : Nat
  backoffMultiplier : Nat
  rateLimitDelayMs : Nat
deriving DecidableEq

/-- The response attached to an Axios error; its `status` may be absent. -/
structure AxiosResp where
  status : Option Nat
deriving DecidableEq

/-- The error values `isRetryableError` discriminates: an Axios error with an
optional response and optional `code`, a non-Axios object error, or a
non-object value. -/
inductive JsError where
  | axios (response : Option AxiosResp) (code : Option String)
  | plainObject
  | nonObject
deriving DecidableEq

/-- `axiosError.response?.status`. -/
def respStatus (response : Option AxiosResp) : Option Nat :=
  response.bind (fun r => r.status)

/-- The string literal compared against `axiosError.code`. -/
def econnAborted : String := "ECONNABORTED"

/-- `isRetryableError` from `src/utils/retry.ts`. The guard
`status && status >= 500 && status < 600` needs a truthy (present, non-zero)
status; `status === 429` does not. -/
def isRetryableError : JsError → Bool
  | .axios response code =>
    let status := respStatus response
    if (match status with
        | some s => !(s == 0) && decide (500 ≤ s) && decide (s < 600)
        | none => false) then
      true
    else if status == some 429 then
      true
    else if response.isNone && !(code == some econnAborted) then
      true
    else
      false
  | .plainObject => false
  | .nonObject => false

/-- The `is429` test inside `withRetry`: an Axios error whose
`response?.status` is 429. -/
def is429Error : JsError → Bool
  | .axios response _ => respStatus response == some 429
  | _ => false

/-- `calculateDelay` from `src/utils/retry.ts`. -/
def calculateDelay (attempt : Nat) (config : RetryConfig) (is429 : Bool) : Nat :=
  if is429 then
    max config.rateLimitDelayMs (config.initialDelayMs * config.backoffMultiplier ^ attempt)
  else
    min (config.initialDelayMs * config.backoffMultiplier ^ attempt) config.maxDelayMs

/-- The observable trace of one `withRetry` run: the final outcome, how many
times the wrapped operation was invoked, and the sleeps performed in order. -/
structure RetryTrace (α : Type) where
  result : Except JsError α
  attempts : Nat
  delays : List Nat

/-- The retry loop of `withRetry`. The wrapped operation is `op`, indexed by
attempt number; `fuel = maxRetries - attempt`, so `fuel = 0` is exactly the
`attempt === maxRetries` exit. -/
def withRetryGo {α : Type} (op : Nat → Except JsError α) (config : RetryConfig) :
    Nat → Nat → RetryTrace α
  | attempt, fuel =>
    match op attempt with
    | .ok v => ⟨.ok v, 1, []⟩
    | .error e =>
      if isRetryableError e then
        match fuel with
        | 0 => ⟨.error e, 1, []⟩
        | fuel' + 1 =>
          let t := withRetryGo op config (attempt + 1) fuel'
          ⟨t.result, t.attempts + 1, calculateDelay attempt config (is429Error e) :: t.delays⟩
      else
        ⟨.error e, 1, []⟩

/-- `withRetry` from `src/utils/retry.ts`. -/
def withRetry {α : Type} (op : Nat → Except JsError α) (config : RetryConfig) : RetryTrace α :=
  withRetryGo op config 0 config.maxRetries

/-- Milliseconds per day. -/
def msPerDay : Nat := 86400000

/-- `QuotaManager.getNextResetTime`: midnight UTC of the day after `now`. -/
def getNextResetTime (now : Nat) : Nat :=
  (now / msPerDay + 1) * msPerDay

/-- The mutable fields of `QuotaManager` together with its immutable caps. -/
structure QuotaState where
  requestCount : Nat
  mediaByteCount : Nat
  resetTime : Nat
  maxRequests : Nat
  maxMediaBytes : Nat
deriving DecidableEq

/-- `QuotaManager.checkReset`: zero both counters and recompute `resetTime`
once `now` has crossed it. -/
def checkReset (now : Nat) (s : QuotaState) : QuotaState :=
  if s.resetTime ≤ now then
    { s with requestCount := 0, mediaByteCount := 0, resetTime := getNextResetTime now }
  else
    s

/-- The two `McpError`s thrown by `checkQuota`, with the data their messages
carry. -/
inductive QuotaError where
  | requests (requestCount maxRequests resetTime : Nat)
  | mediaBytes (mediaByteCount maxMediaBytes resetTime : Nat)
deriving DecidableEq

/-- `QuotaManager.checkQuota`: lazy reset first, then the request-count check,
then (for media requests) the media-byte check. The state after the call is
returned alongside the outcome — a thrown error does not undo the reset. -/
def checkQuota (now : Nat) (isMediaRequest : Bool) (s : QuotaState) :
    QuotaState × Except QuotaError Unit :=
  let s1 := checkReset now s
  if s1.maxRequests ≤ s1.requestCount then
    (s1, .error (.requests s1.requestCount s1.maxRequests s1.resetTime))
  else if isMediaRequest && s1.maxMediaBytes ≤ s1.mediaByteCount then
    (s1, .error (.mediaBytes s1.mediaByteCount s1.maxMediaBytes s1.resetTime))
  else
    (s1, .ok ())

/-- The dispatch time of the next queued operation in
`NominatimRateLimiter.processQueue`: if less than `minIntervalMs` has passed
since `lastRequestTime`, sleep for the difference; dispatch happens right
after the sleep, when `lastRequestTime` is set to the current clock. -/
def dispatchStart (minIntervalMs last now : Nat) : Nat :=
  if now - last < minIntervalMs then now + (minIntervalMs - (now - last)) else now

/-- One drain of `NominatimRateLimiter.processQueue` over a queue of
`(id, duration)` operations, with `lastRequestTime = last` and current clock
`now`; each operation is dispatched, awaited to completion (advancing the
clock by its duration), and the queue is processed strictly front to back.
Returns each operation's id with its dispatch start time. -/
def processQueue (minIntervalMs : Nat) : Nat → Nat → List (Nat × Nat) → List (Nat × Nat)
  | _, _, [] => []
  | last, now, (id, dur) :: rest =>
    let start := dispatchStart minIntervalMs last now
    (id, start) :: processQueue minIntervalMs start (start + dur) rest

/-- Consecutive elements are at least `minIntervalMs` apart. -/
def spacedBy (minIntervalMs : Nat) : List Nat → Bool
  | a :: b :: t => decide (a + minIntervalMs ≤ b) && spacedBy minIntervalMs (b :: t)
  | _ => true

/-- The `expiryBuffer` of `TokenRefreshManager.refreshIfNeeded`: 5 minutes. -/
def expiryBufferMs : Int := 5 * 60 * 1000

/-- The `TokenRefreshManager` state a `refreshIfNeeded` call observes: the
`refreshPromises` map, plus instrumentation — `nextId` names the next created
refresh promise and `started` counts `performRefresh` invocations (each of
which issues exactly one upstream `refreshAccessToken` call). -/
structure MgrState where
  refreshPromises : List (String × Nat)
  nextId : Nat
  started : Nat
deriving DecidableEq

/-- Where one `refreshIfNeeded` call stands after its synchronous prefix:
it returned an already-in-flight promise, returned the still-fresh input
token, or registered a new refresh promise it now awaits. -/
inductive CallPhase where
  | joined (pid : Nat)
  | returnedCurrent (t : TokenData)
  | initiated (pid : Nat)
deriving DecidableEq

/-- The synchronous prefix of `TokenRefreshManager.refreshIfNeeded`: under the
JavaScript event loop it runs atomically, because there is no `await` between
the `refreshPromises.get(userId)` check and the `refreshPromises.set`. In
source order: first the in-flight-map check, then the freshness check, else
start `performRefresh` and cache its promise. -/
def entryStep (now : Int) (st : MgrState) (userId : String) (currentTokens : TokenData) :
    MgrState × CallPhase :=
  match jsObjGet st.refreshPromises userId with
  | some pid => (st, .joined pid)
  | none =>
    if now + expiryBufferMs < currentTokens.expiry_date then
      (st, .returnedCurrent currentTokens)
    else
      ({ refreshPromises := jsObjSet st.refreshPromises userId st.nextId,
         nextId := st.nextId + 1,
         started := st.started + 1 }, .initiated st.nextId)

/-- N concurrent `refreshIfNeeded` calls for the same user: their atomic
synchronous prefixes run one after another, in the given order, all before
the shared refresh settles. -/
def runCalls (now : Int) (userId : String) : MgrState → List TokenData → MgrState × List CallPhase
  | st, [] => (st, [])
  | st, c :: rest =>
    let step := entryStep now st userId c
    let r := runCalls now userId step.1 rest
    (r.1, step.2 :: r.2)

/-- An error propagated out of a failed refresh. -/
inductive RefreshErr where
  | upstream (message : String)
deriving DecidableEq

/-- The value a caller's `refreshIfNeeded` promise resolves to once the
promises settle: `settle pid` is the settled value of refresh promise `pid`
(the refreshed tokens on success, the upstream error on failure); a caller
that took the freshness short-circuit already resolved to its input. -/
def phaseResult (settle : Nat → Except RefreshErr TokenData) :
    CallPhase → Except RefreshErr TokenData
  | .joined pid => settle pid
  | .initiated pid => settle pid
  | .returnedCurrent t => .ok t

/-- The `finally` block of the initiating caller:
`refreshPromises.delete(userId)`, run on success and failure alike once the
awaited refresh promise has settled. -/
def finallyCleanup (st : MgrState) (userId : String) : MgrState :=
  { st with refreshPromises := jsObjDelete st.refreshPromises userId }

/-- The claims of a Google ID token relevant to verification. -/
structure IdPayload where
  iss : String
  aud : String
  exp : Nat
  email : Option String
  sub : Option String
  name : Option String
  given_name : Option String
  family_name : Option String
  picture : Option String
deriving DecidableEq

/-- An ID token: a payload plus a signature over it, drawn from an abstract
signature space `S`. -/
structure SignedToken (S : Type) where
  payload : IdPayload
  sig : S
deriving DecidableEq

/-- The projection `googleUser.ts` returns on success. -/
structure GoogleIdTokenPayload where
  email : Option String
  sub : Option String
  name : Option String
  given_name : Option String
  family_name : Option String
  picture : Option String
deriving DecidableEq

/-- Modelled from the spec: `OAuth2Client.verifyIdToken` of google-auth-library
— the external identity-assertion verifier, which is not part of this
repository. Per the spec it performs full signature verification against the
issuing authority's current signing keys (`sign` is the issuer's signing
function) and additionally checks that the audience matches and that the
token is not expired; any failure throws, which the caller turns into null. -/
def verifyIdToken {S : Type} [DecidableEq S] (sign : IdPayload → S) (audience : String)
    (now : Nat) (tok : SignedToken S) : Option IdPayload :=
  if tok.sig = sign tok.payload ∧ tok.payload.aud = audience ∧ now < tok.payload.exp then
    some tok.payload
  else
    none

/-- `parseIdToken` from `src/utils/googleUser.ts`, the verifying variant used
by the OAuth callback: signature, audience and expiry are checked through the
external verifier, then the issuer must be Google, then the payload is
projected. Every failure yields null. -/
def parseIdToken {S : Type} [DecidableEq S] (sign : IdPayload → S) (clientId : String)
    (now : Nat) (idToken : Option (SignedToken S)) : Option GoogleIdTokenPayload :=
  match idToken with
  | none => none
  | some tok =>
    match verifyIdToken sign clientId now tok with
    | none => none
    | some payload =>
      if payload.iss = "https://accounts.google.com" ∨ payload.iss = "accounts.google.com" then
        some ⟨payload.email, payload.sub, payload.name, payload.given_name,
              payload.family_name, payload.picture⟩
      else
        none

/-- The sensitive half stored in the OS keychain by `saveTokensSecure`; the
values come straight out of the legacy file, hence dynamically typed. -/
structure SecurePayload where
  access_token : Option JLit
  refresh_token : Option JLit
  id_token : Option JLit
  expiry_date : Option JLit
deriving DecidableEq

/-- The metadata file written next to the keychain entry. -/
structure TokenMetadata where
  userId : String
  userEmail : Option JLit
  retrievedAt : Nat
deriving DecidableEq

/-- The filesystem and keychain state `migrateLegacyTokens` acts on. The
legacy file is absent (`none`), present but unparseable (`some none`), or a
parsed JSON object (`some (some entries)`). -/
structure SecureStorageState where
  legacyFile : Option (Option (List (String × RawRecord)))
  keychain : List (String × SecurePayload)
  metadata : List (String × TokenMetadata)
  backups : List (List (String × RawRecord))
deriving DecidableEq

/-- A write performed during migration. -/
inductive MigrationWrite where
  | secureSave (userId : String)
  | renameLegacy
deriving DecidableEq

/-- `saveTokensSecure` from `src/auth/secureTokenStorage.ts`: keychain set
plus metadata file write stamped with `retrievedAt = Date.now()`. -/
def saveTokensSecure (st : SecureStorageState) (userId : String) (tokens : SecurePayload)
    (userEmail : Option JLit) (now : Nat) : SecureStorageState :=
  { st with
    keychain := jsObjSet st.keychain userId tokens,
    metadata := jsObjSet st.metadata userId ⟨userId, userEmail, now⟩ }

/-- `migrateLegacyTokens` from `src/auth/secureTokenStorage.ts`: an absent
legacy file is logged and returns without writing (no error); an unparseable
file re-throws the parse error; otherwise every entry is written through
`saveTokensSecure` and the legacy file is renamed to a timestamped backup.
Returns the outcome together with the list of writes performed. -/
def migrateLegacyTokens (now : Nat) (st : SecureStorageState) :
    Except Unit SecureStorageState × List MigrationWrite :=
  match st.legacyFile with
  | none => (.ok st, [])
  | some none => (.error (), [])
  | some (some entries) =>
    let st1 := entries.foldl
      (fun acc p =>
        saveTokensSecure acc p.1
          ⟨p.2.access_token, p.2.refresh_token, p.2.id_token, p.2.expiry_date⟩
          p.2.userEmail now)
      st
    let st2 := { st1 with legacyFile := none, backups := st1.backups ++ [entries] }
    (.ok st2, entries.map (fun p => .secureSave p.1) ++ [.renameLegacy])

/-- A valid entry saved with `retrievedAt = 1000` (user A of the spec's
newest-wins example). -/
def sampleEntryA : StoreVal :=
  .record ⟨some (.str ("atA")), some (.str ("rtA")), none, some (.num 1), none, none,
    some (.num 1000)⟩

/-- A valid entry saved with `retrievedAt = 1050` (user B of the spec's
newest-wins example). -/
def sampleEntryB : StoreVal :=
  .record ⟨some (.str ("atB")), some (.str ("rtB")), none, some (.num 2), none, none,
    some (.num 1050)⟩

/-- The spec's newest-wins example store: A saved at 1000, then B at 1050. -/
def sampleStore : List (String × StoreVal) :=
  [(("a"), sampleEntryA), (("b"), sampleEntryB)]

/-- A store whose only entry has empty token strings and a non-numeric
expiry: it passes the key-presence check `isValidToken` but not the
predicate the specification words. -/
def emptyStringStore : List (String × StoreVal) :=
  [(("u"), .record ⟨some (.str ("")), some (.str ("")), none, some (.str ("soon")), none,
    none, none⟩)]

theorem jsObjGet_jsObjSet_self {V : Type} (m : List (String × V)) (k : String) (v : V) :
    jsObjGet (jsObjSet m k v) k = some v := by
  induction m with
  | nil => simp [jsObjSet, jsObjGet, List.find?]
  | cons p m ih =>
    by_cases h : (p.1 == k) = true
    · simp [jsObjSet, jsObjGet, h, List.find?]
    · simp only [jsObjSet, h, if_false, Bool.false_eq_true, ite_false]
      simpa [jsObjGet, List.find?_cons, h] using ih

theorem jsObjGet_jsObjSet_ne {V : Type} (m : List (String × V)) (k k2 : String) (v : V)
    (h : k2 ≠ k) : jsObjGet (jsObjSet m k v) k2 = jsObjGet m k2 := by
  have hkk : (k == k2) = false := by simpa using fun e => h e.symm
  induction m with
  | nil => simp [jsObjSet, jsObjGet, List.find?, hkk]
  | cons p m ih =>
    by_cases h1 : (p.1 == k) = true
    · have hp : p.1 = k := by simpa using h1
      have hp2 : (p.1 == k2) = false := by
        simpa using fun e => h (hp ▸ e).symm
      simp [jsObjSet, h1, jsObjGet, List.find?_cons, hkk, hp2]
    · by_cases h2 : (p.1 == k2) = true
      · simp [jsObjSet, h1, jsObjGet, List.find?_cons, h2]
      · simpa [jsObjSet, h1, jsObjGet, List.find?_cons, h2] using ih

theorem jsObjGet_jsObjDelete_self {V : Type} (m : List (String × V)) (k : String) :
    jsObjGet (jsObjDelete m k) k = none := by
  induction m with
  | nil => rfl
  | cons p m ih =>
    by_cases h : (p.1 == k) = true
    · simp only [jsObjDelete, List.filter_cons, h, Bool.not_true, Bool.false_eq_true,
        if_false, ite_false]
      exact ih
    · have h2 : (p.1 == k) = false := by simpa using h
      simp only [jsObjDelete, jsObjGet] at ih
      simp [jsObjDelete, List.filter_cons, h2, jsObjGet, List.find?_cons, ih]

/-- C10: `saveTokens` is frame-preserving on a store that parses as a JSON
object — every other user's entry is written back unchanged while `userId` is
mapped to the given tokens stamped with `retrievedAt = now`; when the store
file is missing, unreadable or unparseable, the rewritten store contains only
`userId`'s entry. -/
theorem saveTokens_frame (m : List (String × StoreVal)) (userId : String) (t : TokenData)
    (now : Int) :
    (∀ k, k ≠ userId →
      jsObjGet (saveTokensModel (.parsed m) userId t now) k = jsObjGet m k) ∧
    jsObjGet (saveTokensModel (.parsed m) userId t now) userId =
      some (.record (tokenToRecord t now)) ∧
    saveTokensModel .missing userId t now = [(userId, .record (tokenToRecord t now))] ∧
    saveTokensModel .unreadable userId t now = [(userId, .record (tokenToRecord t now))] := by
  refine ⟨fun k hk => ?_, ?_, rfl, rfl⟩
  · exact jsObjGet_jsObjSet_ne m userId k _ hk
  · exact jsObjGet_jsObjSet_self m userId _

/-- C10 witness at a concrete store. -/
theorem saveTokens_frame_witness :
    jsObjGet
        (saveTokensModel (.parsed [(("a"), .prim .nullv), (("b"), .prim (.num 3))])
          ("u") ⟨("at"), ("rt"), 7, none, none, none⟩ 99) ("a") =
      jsObjGet [(("a"), StoreVal.prim .nullv), (("b"), .prim (.num 3))] ("a") ∧
    jsObjGet
        (saveTokensModel (.parsed [(("a"), .prim .nullv), (("b"), .prim (.num 3))])
          ("u") ⟨("at"), ("rt"), 7, none, none, none⟩ 99) ("u") =
      some (.record (tokenToRecord ⟨("at"), ("rt"), 7, none, none, none⟩ 99)) :=
  ⟨(saveTokens_frame _ _ _ _).1 ("a") (by decide),
   (saveTokens_frame _ _ _ _).2.1⟩

/-- C4: the delay before retry `n` (0-indexed) is
`min(initialDelayMs * backoffMultiplier^n, maxDelayMs)` for non-429 failures
and `max(rateLimitDelayMs, initialDelayMs * backoffMultiplier^n)` for 429
failures — hence a 429 retry is never faster than the floor, `n = 0`
included. -/
theorem calculateDelay_spec (n : Nat) (config : RetryConfig) :
    calculateDelay n config false =
      min (config.initialDelayMs * config.backoffMultiplier ^ n) config.maxDelayMs ∧
    calculateDelay n config true =
      max config.rateLimitDelayMs (config.initialDelayMs * config.backoffMultiplier ^ n) ∧
    config.rateLimitDelayMs ≤ calculateDelay n config true :=
  ⟨rfl, rfl, Nat.le_max_left _ _⟩

/-- C9: `migrateLegacyTokens` with an absent legacy source is a no-op (no
writes, no error), and after any successful run the legacy source is gone, so
a second run performs no writes and raises no error. -/
theorem migrateLegacy_idempotent (now now2 : Nat) (st : SecureStorageState) :
    (st.legacyFile = none → migrateLegacyTokens now st = (.ok st, [])) ∧
    (∀ st2, (migrateLegacyTokens now st).1 = .ok st2 →
      migrateLegacyTokens now2 st2 = (.ok st2, [])) := by
  constructor
  · intro h
    simp [migrateLegacyTokens, h]
  · intro st2 h
    cases hl : st.legacyFile with
    | none =>
      rw [migrateLegacyTokens, hl] at h
      cases h
      simp [migrateLegacyTokens, hl]
    | some o =>
      cases o with
      | none => rw [migrateLegacyTokens, hl] at h; cases h
      | some entries =>
        rw [migrateLegacyTokens, hl] at h
        cases h
        simp [migrateLegacyTokens]

/-- C9 witness: an empty state with no legacy file is untouched, and the state
produced by a successful migration is untouched by a second run. -/
theorem migrateLegacy_idempotent_witness :
    migrateLegacyTokens 5 ⟨none, [], [], []⟩ = (.ok ⟨none, [], [], []⟩, []) ∧
    migrateLegacyTokens 7
        ⟨none, [(("u"), ⟨none, none, none, none⟩)], [(("u"), ⟨("u"), none, 5⟩)],
          [[(("u"), ⟨none, none, none, none, none, none, none⟩)]]⟩ =
      (.ok ⟨none, [(("u"), ⟨none, none, none, none⟩)], [(("u"), ⟨("u"), none, 5⟩)],
          [[(("u"), ⟨none, none, none, none, none, none, none⟩)]]⟩, []) :=
  ⟨(migrateLegacy_idempotent 5 7 _).1 rfl,
   (migrateLegacy_idempotent 5 7
      ⟨some (some [(("u"), ⟨none, none, none, none, none, none, none⟩)]), [], [], []⟩).2 _ rfl⟩

/-- C7: `checkQuota` performs the lazy reset before evaluating the limits; it
fails exactly when, after that reset, `requestCount ≥ maxRequests` or (for a
media request) `mediaByteCount ≥ maxMediaBytes`, with the error carrying the
post-reset counts and reset timestamp; otherwise it succeeds with no side
effect beyond the lazy reset — in particular, right after a reset a
`checkQuota false` call with a positive request cap succeeds. -/
theorem checkQuota_hard_stop (now : Nat) (isMedia : Bool) (s : QuotaState) :
    (checkQuota now isMedia s).1 = checkReset now s ∧
    (now < s.resetTime → (checkQuota now isMedia s).1 = s) ∧
    ((checkQuota now isMedia s).2 = .ok () ↔
      ((checkReset now s).requestCount < s.maxRequests ∧
        (isMedia = true → (checkReset now s).mediaByteCount < s.maxMediaBytes))) ∧
    (s.maxRequests ≤ (checkReset now s).requestCount →
      (checkQuota now isMedia s).2 =
        .error (.requests (checkReset now s).requestCount s.maxRequests
          (checkReset now s).resetTime)) ∧
    ((checkReset now s).requestCount < s.maxRequests → isMedia = true →
      s.maxMediaBytes ≤ (checkReset now s).mediaByteCount →
      (checkQuota now isMedia s).2 =
        .error (.mediaBytes (checkReset now s).mediaByteCount s.maxMediaBytes
          (checkReset now s).resetTime)) ∧
    (s.resetTime ≤ now → 0 < s.maxRequests → (checkQuota now false s).2 = .ok ()) := by
  have hmr : (checkReset now s).maxRequests = s.maxRequests := by
    rw [checkReset]; split <;> rfl
  have hmb : (checkReset now s).maxMediaBytes = s.maxMediaBytes := by
    rw [checkReset]; split <;> rfl
  refine ⟨?_, ?_, ?_, ?_, ?_, ?_⟩
  · simp only [checkQuota]
    split
    · rfl
    · split <;> rfl
  · intro h
    have hid : checkReset now s = s := by
      rw [checkReset, if_neg (by omega)]
    simp only [checkQuota]
    rw [hid]
    split
    · rfl
    · split <;> rfl
  · simp only [checkQuota]
    by_cases h1 : (checkReset now s).maxRequests ≤ (checkReset now s).requestCount
    · rw [if_pos h1]
      simp only [reduceCtorEq, false_iff]
      rw [hmr] at h1
      intro hc
      omega
    · rw [if_neg h1]
      rw [hmr] at h1
      by_cases h2 : (isMedia && decide ((checkReset now s).maxMediaBytes ≤
          (checkReset now s).mediaByteCount)) = true
      · rw [if_pos h2]
        simp only [Bool.and_eq_true, decide_eq_true_eq] at h2
        simp only [reduceCtorEq, false_iff]
        rw [hmb] at h2
        intro hc
        have := hc.2 h2.1
        omega
      · rw [if_neg h2]
        simp only [Bool.and_eq_true, decide_eq_true_eq, not_and, not_le] at h2
        rw [hmb] at h2
        constructor
        · intro _
          exact ⟨by omega, fun hi => h2 hi⟩
        · intro _
          rfl
  · intro h1
    simp only [checkQuota]
    rw [if_pos (by omega)]
    simp only [hmr]
  · intro h1 h2 h3
    simp only [checkQuota]
    rw [if_neg (by omega), if_pos (by simp [h2]; omega)]
    simp only [hmb]
  · intro h1 h2
    have hid : checkReset now s =
        { s with requestCount := 0, mediaByteCount := 0, resetTime := getNextResetTime now } := by
      rw [checkReset, if_pos h1]
    simp only [checkQuota]
    rw [hid]
    rw [if_neg (by simp; omega), if_neg (by simp)]

/-- C7 witness: a full window fails with the carried counts and reset time; a
crossed reset boundary zeroes the counters and the same call succeeds. -/
theorem checkQuota_hard_stop_witness :
    (checkQuota 1000 false ⟨10000, 0, 100000000000000, 10000, 75000⟩).2 =
      .error (.requests 10000 10000 100000000000000) ∧
    (checkQuota 1500 false ⟨10000, 0, 1000, 10000, 75000⟩).2 = .ok () :=
  ⟨by
    have h := (checkQuota_hard_stop 1000 false ⟨10000, 0, 100000000000000, 10000, 75000⟩).2.2.2.1
    rw [show checkReset 1000 ⟨10000, 0, 100000000000000, 10000, 75000⟩ =
        ⟨10000, 0, 100000000000000, 10000, 75000⟩ from rfl] at h
    exact h (by decide),
   (checkQuota_hard_stop 1500 false ⟨10000, 0, 1000, 10000, 75000⟩).2.2.2.2.2
     (by decide) (by decide)⟩

/-- C3 (amended): when no refresh for `userId` is in flight, a
`refreshIfNeeded` call whose token is still fresh
(`expiry_date > now + expiryBuffer`) returns the input unchanged and leaves
the manager state untouched — no upstream call, no RefreshState change. -/
theorem freshness_short_circuit (now : Int) (st : MgrState) (userId : String)
    (current : TokenData) (hidle : jsObjGet st.refreshPromises userId = none)
    (hfresh : now + expiryBufferMs < current.expiry_date) :
    entryStep now st userId current = (st, .returnedCurrent current) := by
  rw [entryStep, hidle]
  simp [hfresh]

/-- C3 witness at a concrete idle state and fresh token. -/
theorem freshness_short_circuit_witness :
    entryStep 0 ⟨[], 0, 0⟩ ("u") ⟨("a"), ("r"), 1000000000, none, none, none⟩ =
      (⟨[], 0, 0⟩, .returnedCurrent ⟨("a"), ("r"), 1000000000, none, none, none⟩) :=
  freshness_short_circuit 0 ⟨[], 0, 0⟩ ("u") _ rfl (by decide)

/-- C3 counterexample: the in-flight-map check precedes the freshness check,
so with a refresh for the same user already in flight a call with a perfectly
fresh token joins that refresh instead of returning its input unchanged — the
claimed behaviour does not hold for every RefreshState. -/
theorem freshness_short_circuit_counterexample :
    entryStep 0 ⟨[(("u"), 7)], 8, 1⟩ ("u") ⟨("a"), ("r"), 1000000000, none, none, none⟩ =
      (⟨[(("u"), 7)], 8, 1⟩, .joined 7) ∧
    phaseResult (fun _ => .error (.upstream ("boom"))) (.joined 7) =
      .error (.upstream ("boom")) ∧
    CallPhase.joined 7 ≠
      CallPhase.returnedCurrent ⟨("a"), ("r"), 1000000000, none, none, none⟩ :=
  ⟨rfl, rfl, by decide⟩

theorem runCalls_joined (now : Int) (userId : String) (st : MgrState) (pid : Nat)
    (rest : List TokenData) (h : jsObjGet st.refreshPromises userId = some pid) :
    runCalls now userId st rest = (st, rest.map fun _ => CallPhase.joined pid) := by
  induction rest with
  | nil => rfl
  | cons c rest ih =>
    have hstep : entryStep now st userId c = (st, .joined pid) := by
      rw [entryStep, h]
    rw [runCalls]
    simp [hstep, ih]

/-- C1: N ≥ 2 concurrent `refreshIfNeeded` calls for the same user, all with
an expired token and no refresh yet in flight, start exactly one underlying
refresh (`started` grows by one); every call either initiated or joined that
one promise, so all of them resolve to its settled value — the same refreshed
tokens on success or the same error on failure; and once the initiator's
`finally` has run, the in-flight marker for the user is gone. -/
theorem tokenRefresh_single_flight (now : Int) (userId : String) (st0 : MgrState)
    (calls : List TokenData) (hN : 2 ≤ calls.length)
    (hexp : ∀ t ∈ calls, t.expiry_date ≤ now + expiryBufferMs)
    (hidle : jsObjGet st0.refreshPromises userId = none) :
    (runCalls now userId st0 calls).1.started = st0.started + 1 ∧
    ((runCalls now userId st0 calls).2.all
      (fun p => p == CallPhase.initiated st0.nextId || p == CallPhase.joined st0.nextId))
      = true ∧
    (∀ settle : Nat → Except RefreshErr TokenData,
      (runCalls now userId st0 calls).2.map (phaseResult settle) =
        List.replicate calls.length (settle st0.nextId)) ∧
    jsObjGet (finallyCleanup (runCalls now userId st0 calls).1 userId).refreshPromises
      userId = none := by
  cases calls with
  | nil => simp at hN
  | cons c rest =>
    have hc : c.expiry_date ≤ now + expiryBufferMs := hexp c (List.mem_cons_self _ _)
    have hstep : entryStep now st0 userId c =
        ({ refreshPromises := jsObjSet st0.refreshPromises userId st0.nextId,
           nextId := st0.nextId + 1, started := st0.started + 1 }, .initiated st0.nextId) := by
      rw [entryStep, hidle, if_neg (by omega)]
    have hget : jsObjGet (jsObjSet st0.refreshPromises userId st0.nextId) userId =
        some st0.nextId := jsObjGet_jsObjSet_self _ _ _
    have hrest := runCalls_joined now userId
      ⟨jsObjSet st0.refreshPromises userId st0.nextId, st0.nextId + 1, st0.started + 1⟩
      st0.nextId rest hget
    have hrun : runCalls now userId st0 (c :: rest) =
        (⟨jsObjSet st0.refreshPromises userId st0.nextId, st0.nextId + 1, st0.started + 1⟩,
          .initiated st0.nextId :: rest.map fun _ => CallPhase.joined st0.nextId) := by
      rw [runCalls]
      simp [hstep, hrest]
    refine ⟨by rw [hrun], ?_, ?_, ?_⟩
    · rw [hrun]
      simp [List.all_eq_true]
    · intro settle
      rw [hrun]
      simp only [List.map_cons, List.map_map, phaseResult, List.length_cons,
        List.replicate_succ]
      congr 1
      simp [Function.comp_def, phaseResult, List.map_const']
    · rw [hrun]
      exact jsObjGet_jsObjDelete_self _ _

/-- C1 witness: two concurrent calls with expired tokens, one upstream
refresh, both callers resolving to the settled value of promise 0 (here a
failure), marker cleared. -/
theorem tokenRefresh_single_flight_witness :
    (runCalls 0 ("u") ⟨[], 0, 0⟩
      [⟨("a"), ("r"), 0, none, none, none⟩, ⟨("a"), ("r"), 0, none, none, none⟩]).1.started =
      0 + 1 ∧
    ((runCalls 0 ("u") ⟨[], 0, 0⟩
      [⟨("a"), ("r"), 0, none, none, none⟩, ⟨("a"), ("r"), 0, none, none, none⟩]).2.map
        (phaseResult (fun _ => .error (.upstream ("boom"))))) =
      List.replicate 2 (.error (.upstream ("boom"))) ∧
    jsObjGet (finallyCleanup
      (runCalls 0 ("u") ⟨[], 0, 0⟩
        [⟨("a"), ("r"), 0, none, none, none⟩,
          ⟨("a"), ("r"), 0, none, none, none⟩]).1 ("u")).refreshPromises ("u") = none := by
  have h := tokenRefresh_single_flight 0 ("u") ⟨[], 0, 0⟩
    [⟨("a"), ("r"), 0, none, none, none⟩, ⟨("a"), ("r"), 0, none, none, none⟩]
    (by decide) (by decide) rfl
  exact ⟨h.1, h.2.2.1 _, h.2.2.2⟩

theorem withRetryGo_attempts_le {α : Type} (op : Nat → Except JsError α) (config : RetryConfig) :
    ∀ fuel attempt, (withRetryGo op config attempt fuel).attempts ≤ fuel + 1 := by
  intro fuel
  induction fuel with
  | zero =>
    intro a
    rw [withRetryGo]
    split
    · exact Nat.le_refl _
    · split
      · exact Nat.le_refl _
      · exact Nat.le_refl _
  | succ f ih =>
    intro a
    rw [withRetryGo]
    split
    · exact Nat.succ_le_succ (Nat.zero_le _)
    · split
      · exact Nat.succ_le_succ (ih (a + 1))
      · exact Nat.succ_le_succ (Nat.zero_le _)

theorem withRetryGo_exhausts {α : Type} (op : Nat → Except JsError α) (config : RetryConfig) :
    ∀ fuel attempt,
      (∀ j, j ≤ fuel → ∃ e, op (attempt + j) = .error e ∧ isRetryableError e = true) →
      (withRetryGo op config attempt fuel).attempts = fuel + 1 ∧
      (withRetryGo op config attempt fuel).result = op (attempt + fuel) := by
  intro fuel
  induction fuel with
  | zero =>
    intro a h
    obtain ⟨e, he, hr⟩ := h 0 (Nat.le_refl 0)
    rw [Nat.add_zero] at he
    rw [withRetryGo, he]
    simp [hr, he]
  | succ f ih =>
    intro a h
    obtain ⟨e, he, hr⟩ := h 0 (Nat.zero_le _)
    rw [Nat.add_zero] at he
    have ihh := ih (a + 1) (fun j hj => by
      obtain ⟨e2, he2, hr2⟩ := h (j + 1) (by omega)
      exact ⟨e2, by rw [← he2]; congr 1; omega, hr2⟩)
    rw [withRetryGo, he]
    simp only [hr, if_true, ite_true]
    refine ⟨by simpa using ihh.1, ?_⟩
    have := ihh.2
    rw [this]
    congr 1
    omega

/-- C5: a first failure that is not retryable (any HTTP status outside 5xx and
429, an error carrying a response with such a status, or a non-Axios error)
makes `withRetry` return that error after exactly one invocation with no
delay; the operation is never invoked more than `maxRetries + 1` times; and
with every attempt failing retryably, the last error is returned after
exactly `maxRetries + 1` invocations. -/
theorem withRetry_nonRetryable_short_circuit {α : Type} (op : Nat → Except JsError α)
    (config : RetryConfig) :
    (∀ e, op 0 = .error e → isRetryableError e = false →
      (withRetry op config).result = .error e ∧ (withRetry op config).attempts = 1 ∧
      (withRetry op config).delays = []) ∧
    (withRetry op config).attempts ≤ config.maxRetries + 1 ∧
    ((∀ j, j ≤ config.maxRetries → ∃ e, op j = .error e ∧ isRetryableError e = true) →
      (withRetry op config).attempts = config.maxRetries + 1 ∧
      (withRetry op config).result = op config.maxRetries) := by
  refine ⟨?_, ?_, ?_⟩
  · intro e he hr
    rw [withRetry, withRetryGo, he]
    simp [hr]
  · exact withRetryGo_attempts_le op config _ _
  · intro h
    have := withRetryGo_exhausts op config config.maxRetries 0
      (fun j hj => by simpa using h j hj)
    rw [withRetry]
    simpa using this

/-- C5 witness: an HTTP 400 failure is returned after one attempt with no
delay; a persistent HTTP 500 failure exhausts all `maxRetries + 1 = 4`
attempts. -/
theorem withRetry_nonRetryable_short_circuit_witness :
    (withRetry (fun _ => (.error (.axios (some ⟨some 400⟩) none) : Except JsError Unit))
        ⟨3, 1000, 30000, 2, 30000⟩).result = .error (.axios (some ⟨some 400⟩) none) ∧
    (withRetry (fun _ => (.error (.axios (some ⟨some 400⟩) none) : Except JsError Unit))
        ⟨3, 1000, 30000, 2, 30000⟩).attempts = 1 ∧
    (withRetry (fun _ => (.error (.axios (some ⟨some 400⟩) none) : Except JsError Unit))
        ⟨3, 1000, 30000, 2, 30000⟩).delays = [] ∧
    (withRetry (fun _ => (.error (.axios (some ⟨some 500⟩) none) : Except JsError Unit))
        ⟨3, 1000, 30000, 2, 30000⟩).attempts = 3 + 1 := by
  have h1 := (withRetry_nonRetryable_short_circuit
    (fun _ => (.error (.axios (some ⟨some 400⟩) none) : Except JsError Unit))
    ⟨3, 1000, 30000, 2, 30000⟩).1 _ rfl (by decide)
  have h2 := (withRetry_nonRetryable_short_circuit
    (fun _ => (.error (.axios (some ⟨some 500⟩) none) : Except JsError Unit))
    ⟨3, 1000, 30000, 2, 30000⟩).2.2
    (fun j hj => ⟨.axios (some ⟨some 500⟩) none, rfl, by decide⟩)
  exact ⟨h1.1, h1.2.1, h1.2.2, h2.1⟩

theorem dispatchStart_ge (minIntervalMs last now : Nat) (h : last ≤ now) :
    last + minIntervalMs ≤ dispatchStart minIntervalMs last now := by
  rw [dispatchStart]
  split <;> omega

theorem processQueue_ids (minIntervalMs : Nat) :
    ∀ (q : List (Nat × Nat)) (last now : Nat),
      (processQueue minIntervalMs last now q).map (fun p => p.1) = q.map (fun p => p.1) := by
  intro q
  induction q with
  | nil => intro last now; rfl
  | cons x rest ih =>
    intro last now
    cases x with
    | mk id dur => simp [processQueue, ih]

theorem processQueue_spaced_aux (minIntervalMs : Nat) :
    ∀ (q : List (Nat × Nat)) (last now : Nat), last ≤ now →
      spacedBy minIntervalMs
        (last :: (processQueue minIntervalMs last now q).map (fun p => p.2)) = true := by
  intro q
  induction q with
  | nil => intro last now h; rfl
  | cons x rest ih =>
    intro last now h
    cases x with
    | mk id dur =>
      simp only [processQueue, List.map_cons]
      rw [spacedBy, Bool.and_eq_true]
      exact ⟨by simpa using dispatchStart_ge minIntervalMs last now h,
        ih _ _ (Nat.le_add_right _ _)⟩

theorem spacedBy_of_cons (minIntervalMs a : Nat) (L : List Nat)
    (h : spacedBy minIntervalMs (a :: L) = true) : spacedBy minIntervalMs L = true := by
  cases L with
  | nil => rfl
  | cons b t =>
    rw [spacedBy, Bool.and_eq_true] at h
    exact h.2

/-- C8: one drain of the rate limiter queue dispatches the operations in
exactly their submission order, and the start times of any two consecutively
dispatched operations are at least `minIntervalMs` apart. -/
theorem rateLimiter_spacing_fifo (minIntervalMs last now : Nat) (queue : List (Nat × Nat))
    (h : last ≤ now) :
    (processQueue minIntervalMs last now queue).map (fun p => p.1) =
      queue.map (fun p => p.1) ∧
    spacedBy minIntervalMs
      ((processQueue minIntervalMs last now queue).map (fun p => p.2)) = true :=
  ⟨processQueue_ids minIntervalMs queue last now,
   spacedBy_of_cons _ _ _ (processQueue_spaced_aux minIntervalMs queue last now h)⟩

/-- C8 witness: three operations queued together are dispatched in submission
order with consecutive starts at least 1100 ms apart. -/
theorem rateLimiter_spacing_fifo_witness :
    (processQueue 1100 0 5000 [(0, 50), (1, 2000), (2, 0)]).map (fun p => p.1) =
      [((0 : Nat), (50 : Nat)), (1, 2000), (2, 0)].map (fun p => p.1) ∧
    spacedBy 1100 ((processQueue 1100 0 5000 [(0, 50), (1, 2000), (2, 0)]).map (fun p => p.2))
      = true :=
  rateLimiter_spacing_fifo 1100 0 5000 [(0, 50), (1, 2000), (2, 0)] (by decide)

/-- C2: ID-token verification refuses tampering and bad claims. With a
collision-free signing function, a token whose payload was altered without
re-signing fails verification no matter how plausible the altered payload
looks; and a correctly signed token is still refused when its audience,
expiry, or issuer does not check out. -/
theorem parseIdToken_rejects_tampering {S : Type} [DecidableEq S] (sign : IdPayload → S)
    (clientId : String) (now : Nat) (t : SignedToken S)
    (hinj : Function.Injective sign) (hsig : t.sig = sign t.payload) :
    (∀ p2 : IdPayload, p2 ≠ t.payload →
      parseIdToken sign clientId now (some ⟨p2, t.sig⟩) = none) ∧
    (t.payload.aud ≠ clientId → parseIdToken sign clientId now (some t) = none) ∧
    (t.payload.exp ≤ now → parseIdToken sign clientId now (some t) = none) ∧
    (t.payload.iss ≠ "https://accounts.google.com" → t.payload.iss ≠ "accounts.google.com" →
      parseIdToken sign clientId now (some t) = none) := by
  refine ⟨?_, ?_, ?_, ?_⟩
  · intro p2 hp2
    have hv : verifyIdToken sign clientId now ⟨p2, t.sig⟩ = none := by
      rw [verifyIdToken, if_neg]
      rintro ⟨h1, -⟩
      exact hp2 (hinj (hsig.symm.trans h1)).symm
    rw [parseIdToken, hv]
  · intro haud
    have hv : verifyIdToken sign clientId now t = none := by
      rw [verifyIdToken, if_neg]
      rintro ⟨-, h2, -⟩
      exact haud h2
    rw [parseIdToken, hv]
  · intro hexp
    have hv : verifyIdToken sign clientId now t = none := by
      rw [verifyIdToken, if_neg]
      rintro ⟨-, -, h3⟩
      omega
    rw [parseIdToken, hv]
  · intro h1 h2
    rw [parseIdToken]
    cases hv : verifyIdToken sign clientId now t with
    | none => rfl
    | some payload =>
      have hpay : payload = t.payload := by
        rw [verifyIdToken] at hv
        by_cases hcond : t.sig = sign t.payload ∧ t.payload.aud = clientId ∧
            now < t.payload.exp
        · rw [if_pos hcond] at hv
          exact (Option.some.inj hv).symm
        · rw [if_neg hcond] at hv
          cases hv
      dsimp only
      rw [if_neg]
      rintro (h | h) <;> rw [hpay] at h
      · exact h1 h
      · exact h2 h

/-- C2 witness with the identity signing function (trivially collision-free):
a token whose payload gained a plausible email without re-signing is refused,
and the same well-signed token is refused once expired. -/
theorem parseIdToken_rejects_tampering_witness :
    parseIdToken (fun p : IdPayload => p) ("cid") 50
      (some ⟨⟨("accounts.google.com"), ("cid"), 100, some ("a@b.c"), none, none, none, none,
          none⟩,
        ⟨("accounts.google.com"), ("cid"), 100, none, none, none, none, none, none⟩⟩) =
      none ∧
    parseIdToken (fun p : IdPayload => p) ("cid") 200
      (some ⟨⟨("accounts.google.com"), ("cid"), 100, none, none, none, none, none, none⟩,
        ⟨("accounts.google.com"), ("cid"), 100, none, none, none, none, none, none⟩⟩) =
      none := by
  have h1 := parseIdToken_rejects_tampering (fun p : IdPayload => p) ("cid") 50
    ⟨⟨("accounts.google.com"), ("cid"), 100, none, none, none, none, none, none⟩,
      ⟨("accounts.google.com"), ("cid"), 100, none, none, none, none, none, none⟩⟩
    (fun _ _ h => h) rfl
  have h2 := parseIdToken_rejects_tampering (fun p : IdPayload => p) ("cid") 200
    ⟨⟨("accounts.google.com"), ("cid"), 100, none, none, none, none, none, none⟩,
      ⟨("accounts.google.com"), ("cid"), 100, none, none, none, none, none, none⟩⟩
    (fun _ _ h => h) rfl
  exact ⟨h1.1 _ (by decide), h2.2.2.1 (by decide)⟩

theorem newestLE_trans : ∀ a b c : String × StoreVal,
    newestLE a b → newestLE b c → newestLE a c := by
  intro a b c hab hbc
  simp only [newestLE, decide_eq_true_eq] at *
  omega

theorem newestLE_total : ∀ a b : String × StoreVal, newestLE a b || newestLE b a := by
  intro a b
  simp only [newestLE, Bool.or_eq_true, decide_eq_true_eq]
  omega

theorem head_mergeSort_firstNewest :
    ∀ l : List (String × StoreVal), (l.mergeSort newestLE).head? = firstNewest l := by
  intro l
  induction l with
  | nil => simp [List.mergeSort_nil, firstNewest]
  | cons a l ih =>
    obtain ⟨l₁, l₂, h₁, h₂, h₃⟩ := List.mergeSort_cons newestLE_trans newestLE_total a l
    cases l₁ with
    | nil =>
      rw [h₁]
      simp only [List.nil_append, List.head?_cons]
      rw [firstNewest]
      cases hfl : firstNewest l with
      | none => rfl
      | some m =>
        have hm : l₂.head? = some m := by
          rw [← hfl, ← ih, h₂]
          simp
        cases l₂ with
        | nil => simp at hm
        | cons m0 t =>
          have hm0 : m0 = m := by simpa using hm
          subst hm0
          have hs := List.sorted_mergeSort newestLE_trans newestLE_total (a :: l)
          rw [h₁] at hs
          simp only [List.nil_append] at hs
          have hle : newestLE a m0 = true := (List.pairwise_cons.mp hs).1 m0 (by simp)
          have hnot : ¬ entryTime a.2 < entryTime m0.2 := by
            simp only [newestLE, decide_eq_true_eq] at hle
            omega
          dsimp only
          rw [if_neg hnot]
    | cons b l₁x =>
      rw [h₁]
      simp only [List.cons_append, List.head?_cons]
      have hfb : firstNewest l = some b := by
        rw [← ih, h₂]
        simp
      have hab : newestLE a b = false := by
        have := h₃ b (by simp)
        simpa using this
      have hlt : entryTime a.2 < entryTime b.2 := by
        simp only [newestLE, decide_eq_false_iff_not, not_le] at hab
        exact hab
      rw [firstNewest, hfb]
      simp [hlt]

theorem firstNewest_eq_none : ∀ l : List (String × StoreVal),
    firstNewest l = none ↔ l = [] := by
  intro l
  cases l with
  | nil => simp [firstNewest]
  | cons a t =>
    rw [firstNewest]
    cases firstNewest t with
    | none => simp
    | some m =>
      dsimp only
      constructor
      · intro h
        by_cases hlt : entryTime a.2 < entryTime m.2
        · rw [if_pos hlt] at h
          cases h
        · rw [if_neg hlt] at h
          cases h
      · intro h
        exact absurd h (List.cons_ne_nil _ _)

theorem firstNewest_decomp : ∀ (l : List (String × StoreVal)) (e : String × StoreVal),
    firstNewest l = some e →
    ∃ pre post, l = pre ++ e :: post ∧
      (∀ x ∈ pre, entryTime x.2 < entryTime e.2) ∧
      (∀ x ∈ post, entryTime x.2 ≤ entryTime e.2) := by
  intro l
  induction l with
  | nil => intro e h; simp [firstNewest] at h
  | cons a t ih =>
    intro e h
    rw [firstNewest] at h
    cases hft : firstNewest t with
    | none =>
      rw [hft] at h
      obtain rfl : a = e := Option.some.inj h
      have ht : t = [] := (firstNewest_eq_none t).mp hft
      subst ht
      exact ⟨[], [], rfl, by simp, by simp⟩
    | some m =>
      rw [hft] at h
      dsimp only at h
      by_cases hlt : entryTime a.2 < entryTime m.2
      · rw [if_pos hlt] at h
        obtain rfl : m = e := Option.some.inj h
        obtain ⟨pre, post, heq, hpre, hpost⟩ := ih m hft
        refine ⟨a :: pre, post, by rw [heq]; rfl, ?_, hpost⟩
        intro x hx
        rcases List.mem_cons.mp hx with rfl | hx
        · exact hlt
        · exact hpre x hx
      · rw [if_neg hlt] at h
        obtain rfl : a = e := Option.some.inj h
        obtain ⟨pre, post, heq, hpre, hpost⟩ := ih m hft
        refine ⟨[], t, rfl, by simp, ?_⟩
        intro x hx
        have hm_le : entryTime m.2 ≤ entryTime a.2 := by omega
        rw [heq] at hx
        rcases List.mem_append.mp hx with hx | hx
        · exact le_trans (le_of_lt (hpre x hx)) hm_le
        · rcases List.mem_cons.mp hx with rfl | hx
          · exact hm_le
          · exact le_trans (hpost x hx) hm_le

theorem find?_append_first {α : Type} (p : α → Bool) (pre post : List α) (e : α)
    (hpre : ∀ x ∈ pre, p x = false) (he : p e = true) :
    (pre ++ e :: post).find? p = some e := by
  induction pre with
  | nil => simp [List.find?_cons, he]
  | cons a pre ih =>
    have ha := hpre a (by simp)
    simp only [List.cons_append, List.find?_cons, ha]
    exact ih (fun x hx => hpre x (by simp [hx]))

/-- C6 (amended): `getNewestValidToken` selects, among exactly the entries
passing the code's `isValidToken` — presence of the `access_token`,
`refresh_token` and `expiry_date` keys, with no non-emptiness or numeric
check — the first entry attaining the greatest `retrievedAt` (missing or
non-numeric `retrievedAt` counting as 0): greatest value wins, ties are
broken by insertion order, and null is returned when no entry passes. -/
theorem getNewestValidToken_newest_wins (s : List (String × StoreVal)) :
    (getNewestValidToken s = none ↔ validEntries s = []) ∧
    (∀ e, getNewestValidToken s = some e →
      (validEntries s).find?
        (fun x => (validEntries s).all (fun y => decide (entryTime y.2 ≤ entryTime x.2)))
        = some e) := by
  constructor
  · rw [getNewestValidToken, head_mergeSort_firstNewest]
    constructor
    · intro h
      exact (firstNewest_eq_none _).mp h
    · intro h
      rw [h]
      rfl
  · intro e he
    rw [getNewestValidToken, head_mergeSort_firstNewest] at he
    obtain ⟨pre, post, heq, hpre, hpost⟩ := firstNewest_decomp _ e he
    rw [heq]
    apply find?_append_first
    · intro x hx
      by_cases hb : ((pre ++ e :: post).all
          (fun y => decide (entryTime y.2 ≤ entryTime x.2))) = true
      · exfalso
        rw [List.all_eq_true] at hb
        have h1 := hb e (by simp)
        rw [decide_eq_true_eq] at h1
        have h2 := hpre x hx
        omega
      · simpa using hb
    · rw [List.all_eq_true]
      intro y hy
      rw [decide_eq_true_eq]
      rcases List.mem_append.mp hy with hy | hy
      · exact le_of_lt (hpre y hy)
      · rcases List.mem_cons.mp hy with rfl | hy
        · exact le_refl _
        · exact hpost y hy

/-- C6 witness matching the spec's example: user A saved at `retrievedAt =
1000`, then user B at 1050; the selection picks B's record, the first entry
attaining the maximum. -/
theorem getNewestValidToken_newest_wins_witness :
    (validEntries sampleStore).find?
      (fun x => (validEntries sampleStore).all
        (fun y => decide (entryTime y.2 ≤ entryTime x.2))) =
      some (("b"), sampleEntryB) ∧
    (getNewestValidToken sampleStore = none ↔ validEntries sampleStore = []) :=
  ⟨(getNewestValidToken_newest_wins sampleStore).2 (("b"), sampleEntryB)
      (by rw [getNewestValidToken, head_mergeSort_firstNewest]; rfl),
   (getNewestValidToken_newest_wins sampleStore).1⟩

/-- C6 counterexample to the claim as stated: an entry with empty token
strings and a non-numeric expiry passes the code's key-presence check, so the
selection returns it even though no record passes the predicate the claim
states (non-empty access and refresh tokens, numeric expiry) — "returns null
when no record passes" fails on this store. -/
theorem getNewestValidToken_validity_counterexample :
    (getNewestValidToken emptyStringStore).isSome = true ∧
    emptyStringStore.all (fun p => !(specValidToken p.2)) = true := by
  constructor
  · rw [getNewestValidToken, head_mergeSort_firstNewest]
    rfl
  · decide
